import Mathlib

/-!
Verification development for the JWHD IP Automation repository.

The definitions below are a shallow embedding of the frontend pipeline code
(`frontend/src/components/wizard/ApplicationWizard.tsx` in its latest revision,
and `frontend/src/components/wizard/FileUpload.tsx`): the multi-file merge
engine `mergeFileResults`, the job-polling loop `pollJobStatus`, the client
progress update, the generated-file naming in `handleGenerateADS`, and the
file-selection operations `addFiles` / `removeFile`.  JavaScript truthiness of
optional strings and numbers is modelled explicitly.  The form-generator
pagination, whose backend source is not part of the snapshot, is modelled from
the specification and marked as such.
-/

/-- JavaScript `x || ''` on an optional string field. -/
def optStr : Option String → String
  | none => ""
  | some s => s

/-- JavaScript truthiness of an optional string field: defined and non-empty. -/
def strTruthy : Option String → Bool
  | none => false
  | some s => s != ""

/-- JavaScript truthiness of an optional numeric field: defined and non-zero. -/
def numTruthy : Option Nat → Bool
  | none => false
  | some n => n != 0

/-- JavaScript `x || 0` on an optional numeric field. -/
def getNum : Option Nat → Nat
  | none => 0
  | some n => n

/-- JavaScript `x || dflt` on an optional string: the empty string is falsy. -/
def jsStrOr (o : Option String) (dflt : String) : String :=
  match o with
  | none => dflt
  | some s => if s == "" then dflt else s

/-- The `Inventor` interface of `InventorTable.tsx`. -/
structure Inventor where
  first_name : String
  middle_name : Option String
  last_name : String
  suffix : Option String
  street_address : Option String
  city : Option String
  state : Option String
  zip_code : Option String
  country : Option String
  citizenship : Option String
deriving DecidableEq, Repr

/-- The `Applicant` interface of `ApplicationWizard.tsx`. -/
structure Applicant where
  name : Option String
  street_address : Option String
  city : Option String
  state : Option String
  country : Option String
  zip_code : Option String
deriving DecidableEq, Repr

/-- The `ApplicationMetadata` interface of `ApplicationWizard.tsx` (latest
revision, with applicant and drawing-sheet count). -/
structure ApplicationMetadata where
  title : Option String
  application_number : Option String
  entity_status : Option String
  inventors : List Inventor
  applicant : Option Applicant
  total_drawing_sheets : Option Nat
deriving DecidableEq, Repr

/-- The whitespace characters stripped by JavaScript `String.prototype.trim`
that can occur in the data at hand. -/
def isWsChar (c : Char) : Bool := c == ' ' || c == '\t' || c == '\n' || c == '\r'

/-- JavaScript `trim` on a character list: drop whitespace from both ends. -/
def trimWs (cs : List Char) : List Char :=
  ((cs.dropWhile isWsChar).reverse.dropWhile isWsChar).reverse

/-- The full-name key used by `mergeFileResults` to deduplicate inventors:
`` `${inventor.first_name || ''} ${inventor.middle_name || ''} ${inventor.last_name || ''}`.trim() ``.
Note this is an exact (case-sensitive) string after trimming the ends only. -/
def fullName (inv : Inventor) : String :=
  String.mk (trimWs (inv.first_name ++ " " ++ optStr inv.middle_name ++ " " ++ inv.last_name).data)

/-- The inventor-merging inner loop of `mergeFileResults`: push each incoming
inventor unless an already-merged inventor has the same `fullName`. -/
def mergeInventors (acc : List Inventor) (incoming : List Inventor) : List Inventor :=
  incoming.foldl
    (fun ms inv => if ms.any (fun e => fullName e == fullName inv) then ms else ms ++ [inv]) acc

/-- JavaScript `merged.applicant?.name` truthiness. -/
def applicantNameTruthy : Option Applicant → Bool
  | none => false
  | some a => strTruthy a.name

/-- One iteration of the `for (const result of results)` loop of
`mergeFileResults`.  The source performs a sequence of conditional
assignments, each of which reads and updates a distinct field of `merged`,
so the loop body is stated field by field. -/
def mergeStep (merged result : ApplicationMetadata) : ApplicationMetadata where
  title :=
    if !strTruthy merged.title && strTruthy result.title then result.title else merged.title
  application_number :=
    if !strTruthy merged.application_number && strTruthy result.application_number then
      result.application_number
    else merged.application_number
  entity_status :=
    if !strTruthy merged.entity_status && strTruthy result.entity_status then
      result.entity_status
    else merged.entity_status
  inventors := mergeInventors merged.inventors result.inventors
  applicant :=
    if !applicantNameTruthy merged.applicant && applicantNameTruthy result.applicant then
      result.applicant
    else merged.applicant
  total_drawing_sheets :=
    if numTruthy result.total_drawing_sheets then
      some (getNum merged.total_drawing_sheets + getNum result.total_drawing_sheets)
    else merged.total_drawing_sheets

/-- The JavaScript empty object literal `{}` used for `merged.applicant`. -/
def emptyApplicant : Applicant :=
  { name := none, street_address := none, city := none, state := none,
    country := none, zip_code := none }

/-- The initial accumulator of `mergeFileResults`:
`{ inventors: [], applicant: {}, total_drawing_sheets: 0 }`. -/
def initialMerged : ApplicationMetadata :=
  { title := none, application_number := none, entity_status := none,
    inventors := [], applicant := some emptyApplicant, total_drawing_sheets := some 0 }

/-- The Merge Engine: `mergeFileResults` of `ApplicationWizard.tsx`. -/
def mergeFileResults (results : List ApplicationMetadata) : ApplicationMetadata :=
  results.foldl mergeStep initialMerged

/-- Splits a character list into maximal whitespace-free words
(auxiliary for the specification's identity key). -/
def wordsAux (cur : List Char) : List Char → List (List Char)
  | [] => if cur.isEmpty then [] else [cur.reverse]
  | c :: cs =>
    if isWsChar c then
      if cur.isEmpty then wordsAux [] cs else cur.reverse :: wordsAux [] cs
    else wordsAux (c :: cur) cs

/-- The identity key as worded by the specification (this definition follows
the specification's words, for comparison with the code's `fullName`):
normalized concatenation of first+middle+last name, compared
case-insensitively with whitespace collapsed. -/
def specIdentityKey (inv : Inventor) : String :=
  String.mk (List.intercalate [' ']
    (wordsAux []
      ((inv.first_name ++ " " ++ optStr inv.middle_name ++ " " ++ inv.last_name).data.map
        Char.toLower)))

/-- A per-document result containing a single inventor and nothing else. -/
def docWithInventor (inv : Inventor) : ApplicationMetadata :=
  { title := none, application_number := none, entity_status := none,
    inventors := [inv], applicant := none, total_drawing_sheets := none }

/-- Inventor "Jane Marie Doe" in title case, residing in Palo Alto. -/
def janeTitleCase : Inventor :=
  { first_name := "Jane", middle_name := some "Marie", last_name := "Doe",
    suffix := none, street_address := none, city := some "Palo Alto", state := none,
    zip_code := none, country := none, citizenship := none }

/-- Inventor "JANE MARIE DOE" in upper case. -/
def janeUpperCase : Inventor :=
  { first_name := "JANE", middle_name := some "MARIE", last_name := "DOE",
    suffix := none, street_address := none, city := none, state := none,
    zip_code := none, country := none, citizenship := none }

/-- A byte-identical copy of Jane's name with a different city. -/
def janeSecondCopy : Inventor :=
  { first_name := "Jane", middle_name := some "Marie", last_name := "Doe",
    suffix := none, street_address := none, city := some "Austin", state := none,
    zip_code := none, country := none, citizenship := none }

/-- First `g`-value across `rs` that is truthy under `t`, defaulting to `dflt`. -/
def firstTruthyOr {α : Type} (t : α → Bool) (g : ApplicationMetadata → α)
    (rs : List ApplicationMetadata) (dflt : α) : α :=
  match rs.find? (fun r => t (g r)) with
  | some r => g r
  | none => dflt

/-- The two-document example of the specification:
`[{title:"", app_num:"A1"}, {title:"Widget", app_num:"A2"}]`. -/
def exampleDocA1 : ApplicationMetadata :=
  { title := some "", application_number := some "A1", entity_status := none,
    inventors := [], applicant := none, total_drawing_sheets := none }

def exampleDocWidget : ApplicationMetadata :=
  { title := some "Widget", application_number := some "A2", entity_status := none,
    inventors := [], applicant := none, total_drawing_sheets := none }

/-- Applicant with an empty name, ignored by the merge. -/
def voidApplicant : Applicant :=
  { name := some "", street_address := some "1 Void St", city := none, state := none,
    country := none, zip_code := none }

/-- Applicant with a non-empty name, taken wholesale by the merge. -/
def acmeApplicant : Applicant :=
  { name := some "Acme Corp", street_address := some "2 Main St", city := some "Austin",
    state := none, country := none, zip_code := none }

/-- Document supplying only an applicant. -/
def docWithApplicant (a : Applicant) : ApplicationMetadata :=
  { title := none, application_number := none, entity_status := none,
    inventors := [], applicant := some a, total_drawing_sheets := none }

/-- The `Job` status values of the job-status contract
(`pending | processing | completed | failed`). -/
inductive JobStatus where
  | pending
  | processing
  | completed
  | failed
deriving DecidableEq, Repr

/-- The job snapshot returned by `GET /jobs/:id` as the polling client reads it. -/
structure Job where
  status : JobStatus
  progress_percentage : Option Nat
  error_details : Option String
deriving DecidableEq, Repr

/-- The `pollInterval` constant of `pollJobStatus` (milliseconds). -/
def pollInterval : Nat := 2000

/-- The `maxAttempts` constant of `pollJobStatus`. -/
def maxAttempts : Nat := 60

/-- A job status that keeps the `for` loop of `pollJobStatus` going. -/
def JobStatus.nonTerminal (s : JobStatus) : Prop :=
  s ≠ JobStatus.completed ∧ s ≠ JobStatus.failed

/-- The `for (let i = 0; i < maxAttempts; i++)` loop of `pollJobStatus`:
`jobs i` is the snapshot the `i`-th poll would observe; the remaining fuel is
`maxAttempts - i`.  Completed returns normally, failed throws
`job.error_details || 'Processing failed'`, exhaustion throws
`'Processing timed out'`. -/
def pollLoop (jobs : Nat → Job) : Nat → Nat → Except String Unit
  | _, 0 => .error "Processing timed out"
  | i, fuel + 1 =>
    if (jobs i).status = JobStatus.completed then .ok ()
    else if (jobs i).status = JobStatus.failed then
      .error (jsStrOr (jobs i).error_details "Processing failed")
    else pollLoop jobs (i + 1) fuel

/-- The client polling operation `pollJobStatus` of `ApplicationWizard.tsx`. -/
def pollJobStatus (jobs : Nat → Job) : Except String Unit :=
  pollLoop jobs 0 maxAttempts

/-- A server that reports `processing` twice and then completes. -/
def demoJobs : Nat → Job := fun i =>
  if i < 2 then { status := JobStatus.processing, progress_percentage := some (40 * i), error_details := none }
  else { status := JobStatus.completed, progress_percentage := some 100, error_details := none }

/-- A server that always fails on the first poll with a reason. -/
def demoFailJobs : Nat → Job := fun _ =>
  { status := JobStatus.failed, progress_percentage := none, error_details := some "LLM validation failed" }

/-- The progress update performed by one iteration of the polling loop on the
client's `uploadProgress` state: `completed` sets it to 100; `failed` throws
before any update; otherwise, when `job.progress_percentage` is truthy, the
functional update `prev => Math.max(prev, job.progress_percentage || 0)` is
applied, and nothing changes when it is not. -/
def progressStep (prev : Nat) (job : Job) : Nat :=
  if job.status = JobStatus.completed then 100
  else if job.status = JobStatus.failed then prev
  else if numTruthy job.progress_percentage then
    max prev (getNum job.progress_percentage)
  else prev

/-- Modelled from the spec: per-page inventor capacity of the primary page of
the fixed ADS template (the backend Form Generator source,
`app/services` of the FastAPI application, is not part of the repository
snapshot; §4.5 fixes the primary capacity at 10 slots). -/
def primary_capacity : Nat := 10

/-- Modelled from the spec: per-page inventor capacity of a continuation
page, which "repeats the inventor sub-layout" of the primary page. -/
def continuation_capacity : Nat := 10

/-- Modelled from the spec: the continuation pages are successive
`continuation_capacity`-sized slices of the remaining inventors, in original
list order, until exhausted. -/
def continuationChunks : List Inventor → List (List Inventor)
  | [] => []
  | x :: xs =>
    (x :: xs).take continuation_capacity
      :: continuationChunks ((x :: xs).drop continuation_capacity)
termination_by l => l.length
decreasing_by simp [continuation_capacity]; omega

/-- Modelled from the spec: the Form Generator's pagination — the primary
page holds the first `primary_capacity` inventors and the continuation pages
hold the rest in capacity-sized slices. -/
def paginateInventors (invs : List Inventor) : List (List Inventor) :=
  invs.take primary_capacity :: continuationChunks (invs.drop primary_capacity)

/-- Eleven distinct inventors, used as concrete pagination input. -/
def elevenInventors : List Inventor :=
  (List.range 11).map (fun i =>
    { first_name := "Inv", middle_name := none, last_name := String.mk (List.replicate (i + 1) 'x'),
      suffix := none, street_address := none, city := none, state := none,
      zip_code := none, country := none, citizenship := none })

/-- The fields of a browser `File` object that `FileUpload.tsx` inspects:
its `name` and its MIME `type`. -/
structure JsFile where
  name : String
  type : String
deriving DecidableEq, Repr

/-- The `FileWithStatus` interface of `FileUpload.tsx`. -/
structure FileWithStatus where
  file : JsFile
  status : String
  progress : Nat
deriving DecidableEq, Repr

/-- The `ACCEPTED_FILE_TYPES` constant of `FileUpload.tsx`. -/
def ACCEPTED_FILE_TYPES : List String :=
  [ "application/pdf",
    "text/csv",
    "application/vnd.openxmlformats-officedocument.wordprocessingml.document" ]

/-- JavaScript `validFiles.splice(allowedCount)`, which truncates the array
to its first `allowedCount` elements; a negative argument counts from the
end (`splice(-k)` keeps the first `length − k` elements). -/
def spliceKeep {α : Type} (l : List α) (allowed : Int) : List α :=
  if allowed < 0 then l.take (l.length - allowed.natAbs) else l.take allowed.toNat

/-- The `addFiles` callback of `FileUpload.tsx`: keep the incoming files whose
MIME type is accepted and whose name does not collide with an
already-selected file, truncate to the remaining room below `maxFiles`, and
append them as pending entries. -/
def addFiles (maxFiles : Nat) (currentFiles : List FileWithStatus)
    (newFiles : List JsFile) : List FileWithStatus :=
  let validFiles := newFiles.filter (fun f =>
    ACCEPTED_FILE_TYPES.contains f.type
      && !(currentFiles.any (fun sf => sf.file.name == f.name)))
  let validFiles :=
    if currentFiles.length + validFiles.length > maxFiles then
      spliceKeep validFiles ((maxFiles : Int) - (currentFiles.length : Int))
    else validFiles
  currentFiles ++ validFiles.map (fun f => { file := f, status := "pending", progress := 0 })

/-- The indexed filter `files.filter((_, i) => i !== index)` behind
`removeFile`, with `i` the running index. -/
def removeFileGo (index : Nat) (i : Nat) : List FileWithStatus → List FileWithStatus
  | [] => []
  | x :: xs => if i == index then removeFileGo index (i + 1) xs else x :: removeFileGo index (i + 1) xs

/-- The `removeFile` callback of `FileUpload.tsx`. -/
def removeFile (files : List FileWithStatus) (index : Nat) : List FileWithStatus :=
  removeFileGo index 0 files

/-- A PDF file named "a.pdf". -/
def pdfA : JsFile := { name := "a.pdf", type := "application/pdf" }

/-- A CSV file that also carries the name "a.pdf". -/
def csvA : JsFile := { name := "a.pdf", type := "text/csv" }

/-- A DOCX file named "b.docx". -/
def docxB : JsFile :=
  { name := "b.docx",
    type := "application/vnd.openxmlformats-officedocument.wordprocessingml.document" }

/-- A selected DOCX entry already in the queue. -/
def docxEntry : FileWithStatus := { file := docxB, status := "pending", progress := 0 }

/-- Decimal digit characters. -/
def digitChar : Nat → Char
  | 0 => '0'
  | 1 => '1'
  | 2 => '2'
  | 3 => '3'
  | 4 => '4'
  | 5 => '5'
  | 6 => '6'
  | 7 => '7'
  | 8 => '8'
  | _ => '9'

/-- Two-digit zero-padded decimal rendering, as in an ISO-8601 timestamp. -/
def pad2 (n : Nat) : List Char := [digitChar (n / 10 % 10), digitChar (n % 10)]

/-- Three-digit zero-padded decimal rendering (milliseconds). -/
def pad3 (n : Nat) : List Char :=
  [digitChar (n / 100 % 10), digitChar (n / 10 % 10), digitChar (n % 10)]

/-- Four-digit zero-padded decimal rendering (year). -/
def pad4 (n : Nat) : List Char :=
  [digitChar (n / 1000 % 10), digitChar (n / 100 % 10), digitChar (n / 10 % 10),
    digitChar (n % 10)]

/-- The UTC calendar instant reported by the JavaScript `Date` the generator
creates (`new Date()`), at the millisecond granularity of `toISOString`. -/
structure DateTime where
  year : Nat
  month : Nat
  day : Nat
  hour : Nat
  minute : Nat
  second : Nat
  millisecond : Nat
deriving DecidableEq, Repr

/-- Field ranges of a real calendar instant (four-digit year). -/
def DateTime.Valid (d : DateTime) : Prop :=
  d.year < 10000 ∧ 1 ≤ d.month ∧ d.month ≤ 12 ∧ 1 ≤ d.day ∧ d.day ≤ 31
    ∧ d.hour < 24 ∧ d.minute < 60 ∧ d.second < 60 ∧ d.millisecond < 1000

instance (d : DateTime) : Decidable d.Valid := by
  unfold DateTime.Valid
  infer_instance

/-- The characters of `Date.prototype.toISOString`:
`YYYY-MM-DDTHH:MM:SS.mmmZ`. -/
def isoChars (d : DateTime) : List Char :=
  pad4 d.year ++ '-' :: (pad2 d.month ++ '-' :: (pad2 d.day ++ 'T' :: (pad2 d.hour
    ++ ':' :: (pad2 d.minute ++ ':' :: (pad2 d.second ++ '.' :: (pad3 d.millisecond ++ ['Z']))))))

/-- Rendering of `new Date().toISOString()`. -/
def toISOString (d : DateTime) : String := String.mk (isoChars d)

/-- The character substitution of `.replace(/[:.]/g, '-')`. -/
def replTimestampChar (c : Char) : Char := if c == ':' || c == '.' then '-' else c

/-- The `timestamp` value of `handleGenerateADS`:
`new Date().toISOString().replace(/[:.]/g, '-')`. -/
def sanitizedTimestamp (d : DateTime) : String :=
  String.mk ((toISOString d).data.map replTimestampChar)

/-- The `appNum` value of `handleGenerateADS`:
`metadata.application_number?.replace(/[\/\\]/g, '-') || 'Draft'`. -/
def sanitizeAppNum (o : Option String) : String :=
  match o with
  | none => "Draft"
  | some s =>
    let t := String.mk (s.data.map (fun c => if c == '/' || c == '\\' then '-' else c))
    if t == "" then "Draft" else t

/-- The suggested download filename of `handleGenerateADS`:
`` `ADS_${appNum}_${timestamp}.pdf` ``. -/
def suggestedFilename (md : ApplicationMetadata) (d : DateTime) : String :=
  "ADS_" ++ sanitizeAppNum md.application_number ++ "_" ++ sanitizedTimestamp d ++ ".pdf"

/-- Noon, October 11 2025 UTC. -/
def demoInstant : DateTime :=
  { year := 2025, month := 10, day := 11, hour := 12, minute := 0, second := 0,
    millisecond := 0 }

/-- One millisecond later. -/
def demoInstantLater : DateTime :=
  { year := 2025, month := 10, day := 11, hour := 12, minute := 0, second := 0,
    millisecond := 1 }

example : fullName janeTitleCase = "Jane Marie Doe" := by decide

example : specIdentityKey janeTitleCase = specIdentityKey janeUpperCase := by decide

example : (mergeFileResults [docWithInventor janeTitleCase, docWithInventor janeUpperCase]).inventors.length = 2 := by decide

example : (mergeFileResults [docWithInventor janeTitleCase, docWithInventor janeSecondCopy]).inventors = [janeTitleCase] := by decide

lemma foldl_scalar {α : Type} (t : α → Bool) (g : ApplicationMetadata → α)
    (hstep : ∀ m r, g (mergeStep m r) = if !t (g m) && t (g r) then g r else g m) :
    ∀ (rs : List ApplicationMetadata) (m : ApplicationMetadata),
      g (List.foldl mergeStep m rs) = if t (g m) then g m else firstTruthyOr t g rs (g m) := by
  intro rs
  induction rs with
  | nil =>
    intro m
    simp [firstTruthyOr, List.find?]
  | cons r rest ih =>
    intro m
    rw [List.foldl_cons, ih, hstep]
    by_cases hm : t (g m) <;> by_cases hr : t (g r) <;>
      simp [firstTruthyOr, List.find?_cons, hm, hr]

lemma mergeInventors_pairwise :
    ∀ (incoming acc : List Inventor),
      List.Pairwise (fun a b => fullName a ≠ fullName b) acc →
      List.Pairwise (fun a b => fullName a ≠ fullName b) (mergeInventors acc incoming) := by
  intro incoming
  induction incoming with
  | nil => intro acc h; simpa [mergeInventors] using h
  | cons inv rest ih =>
    intro acc h
    show List.Pairwise _ (List.foldl _ (if acc.any (fun e => fullName e == fullName inv) then acc else acc ++ [inv]) rest)
    by_cases hany : acc.any (fun e => fullName e == fullName inv)
    · rw [if_pos hany]
      exact ih acc h
    · rw [if_neg hany]
      apply ih
      rw [List.pairwise_append]
      refine ⟨h, List.pairwise_singleton _ _, ?_⟩
      intro a ha b hb
      simp only [List.mem_singleton] at hb
      subst hb
      simp only [List.any_eq_true, beq_iff_eq] at hany
      intro hcontra
      exact hany ⟨a, ha, hcontra⟩

lemma foldl_inventors_pairwise :
    ∀ (rs : List ApplicationMetadata) (m : ApplicationMetadata),
      List.Pairwise (fun a b => fullName a ≠ fullName b) m.inventors →
      List.Pairwise (fun a b => fullName a ≠ fullName b) (List.foldl mergeStep m rs).inventors := by
  intro rs
  induction rs with
  | nil => intro m h; simpa using h
  | cons r rest ih =>
    intro m h
    rw [List.foldl_cons]
    exact ih _ (mergeInventors_pairwise r.inventors m.inventors h)

/-- C1 (counterexample): the merge of two per-document results that contain
"Jane Marie Doe" in two different case variants keeps both entries, although
they share the specification's case-insensitive identity key — so the merged
output does contain two inventors sharing that key. -/
theorem mergeFileResults_case_variant_duplicate :
    (mergeFileResults [docWithInventor janeTitleCase, docWithInventor janeUpperCase]).inventors.length = 2
    ∧ ¬ List.Pairwise (fun a b => specIdentityKey a ≠ specIdentityKey b)
        (mergeFileResults [docWithInventor janeTitleCase, docWithInventor janeUpperCase]).inventors := by
  constructor
  · decide
  · decide

/-- C1 (amended): the Merge Engine deduplicates inventors by exact equality of
the trimmed space-joined full name (case-sensitive, interior whitespace kept):
no two inventors in the merged output share that exact full name, and merging
two per-document results that both contain an inventor whose name fields are
byte-identical ("Jane Marie Doe") yields exactly one such entry, the first
occurrence in upload order (here recognizable by its city). -/
theorem mergeFileResults_inventors_dedup :
    (∀ results : List ApplicationMetadata,
        List.Pairwise (fun a b => fullName a ≠ fullName b) (mergeFileResults results).inventors)
    ∧ (mergeFileResults [docWithInventor janeTitleCase, docWithInventor janeSecondCopy]).inventors
        = [janeTitleCase] := by
  constructor
  · intro results
    exact foldl_inventors_pairwise results initialMerged (by simp [initialMerged])
  · decide

/-- C2: each scalar field of the merged output (title, application number,
entity status) is the first truthy (non-empty) value for that field across the
documents in upload order, chosen independently per field (`none` when no
document supplies one); in particular the merge of
`[{title:"", app_num:"A1"}, {title:"Widget", app_num:"A2"}]` has title
"Widget" and application number "A1". -/
theorem mergeFileResults_scalar_first_nonempty :
    (∀ results : List ApplicationMetadata,
        (mergeFileResults results).title
          = firstTruthyOr strTruthy (fun r => r.title) results none
        ∧ (mergeFileResults results).application_number
          = firstTruthyOr strTruthy (fun r => r.application_number) results none
        ∧ (mergeFileResults results).entity_status
          = firstTruthyOr strTruthy (fun r => r.entity_status) results none)
    ∧ (mergeFileResults [exampleDocA1, exampleDocWidget]).title = some "Widget"
    ∧ (mergeFileResults [exampleDocA1, exampleDocWidget]).application_number = some "A1" := by
  refine ⟨fun results => ⟨?_, ?_, ?_⟩, by decide, by decide⟩
  · simpa [initialMerged, strTruthy] using
      foldl_scalar strTruthy (fun r => r.title) (fun m r => rfl) results initialMerged
  · simpa [initialMerged, strTruthy] using
      foldl_scalar strTruthy (fun r => r.application_number) (fun m r => rfl) results initialMerged
  · simpa [initialMerged, strTruthy] using
      foldl_scalar strTruthy (fun r => r.entity_status) (fun m r => rfl) results initialMerged

lemma foldl_drawing_sheets :
    ∀ (rs : List ApplicationMetadata) (m : ApplicationMetadata) (n : Nat),
      m.total_drawing_sheets = some n →
      (List.foldl mergeStep m rs).total_drawing_sheets
        = some (n + (rs.map (fun r => getNum r.total_drawing_sheets)).sum) := by
  intro rs
  induction rs with
  | nil => intro m n h; simpa using h
  | cons r rest ih =>
    intro m n h
    rw [List.foldl_cons]
    have hstep : (mergeStep m r).total_drawing_sheets = some (n + getNum r.total_drawing_sheets) := by
      show (if numTruthy r.total_drawing_sheets then
              some (getNum m.total_drawing_sheets + getNum r.total_drawing_sheets)
            else m.total_drawing_sheets) = _
      rcases hr : r.total_drawing_sheets with _ | k
      · simp [numTruthy, getNum, h]
      · rcases Nat.eq_zero_or_pos k with hk | hk
        · simp [numTruthy, getNum, h, hk]
        · simp [numTruthy, getNum, h, Nat.pos_iff_ne_zero.mp hk]
    rw [ih _ _ hstep]
    simp [Nat.add_assoc]

/-- C5: the merged `total_drawing_sheets` is the sum of the documents'
`total_drawing_sheets` values over all documents in the batch, a missing
value counting as 0. -/
theorem mergeFileResults_drawing_sheets_sum (results : List ApplicationMetadata) :
    (mergeFileResults results).total_drawing_sheets
      = some ((results.map (fun r => getNum r.total_drawing_sheets)).sum) := by
  simpa using foldl_drawing_sheets results initialMerged 0 rfl

/-- C6: the merged applicant equals, wholesale, the applicant of the first
document in upload order whose applicant name is truthy (non-empty);
applicants of later documents are ignored entirely. -/
theorem mergeFileResults_applicant_wholesale (results : List ApplicationMetadata)
    (r : ApplicationMetadata)
    (hfind : results.find? (fun x => applicantNameTruthy x.applicant) = some r) :
    (mergeFileResults results).applicant = r.applicant := by
  have h := foldl_scalar applicantNameTruthy (fun x => x.applicant) (fun m r => rfl)
    results initialMerged
  have hinit : applicantNameTruthy initialMerged.applicant = false := by
    simp [initialMerged, emptyApplicant, applicantNameTruthy, strTruthy]
  rw [show mergeFileResults results = List.foldl mergeStep initialMerged results from rfl, h,
    hinit]
  simp [firstTruthyOr, hfind]

/-- Witness for C6: with two documents whose applicants are "" and
"Acme Corp", the second document's applicant is taken wholesale. -/
theorem mergeFileResults_applicant_wholesale_witness :
    (mergeFileResults [docWithApplicant voidApplicant, docWithApplicant acmeApplicant]).applicant
      = some acmeApplicant := by
  exact mergeFileResults_applicant_wholesale
    [docWithApplicant voidApplicant, docWithApplicant acmeApplicant]
    (docWithApplicant acmeApplicant) (by decide)

/-- C7: the Merge Engine is a pure function of the upload-order list of
per-file results: its output is determined by the per-file extraction results
alone (any two extraction runs agreeing on every file of the batch produce
the same merged output), independently of any completion order or external
state — the upload-order list `(List.range n).map extract` is what the
sequential upload loop feeds it. -/
theorem mergeFileResults_deterministic (n : Nat)
    (extract1 extract2 : Nat → ApplicationMetadata)
    (h : ∀ i, i < n → extract1 i = extract2 i) :
    mergeFileResults ((List.range n).map extract1)
      = mergeFileResults ((List.range n).map extract2) := by
  have : (List.range n).map extract1 = (List.range n).map extract2 := by
    apply List.map_congr_left
    intro i hi
    exact h i (List.mem_range.mp hi)
  rw [this]

/-- Witness for C7 at a concrete batch of size 2. -/
theorem mergeFileResults_deterministic_witness :
    mergeFileResults ((List.range 2).map (fun i => if i == 0 then exampleDocA1 else exampleDocWidget))
      = mergeFileResults ((List.range 2).map (fun i => if i ≤ 0 then exampleDocA1 else exampleDocWidget)) := by
  exact mergeFileResults_deterministic 2 _ _ (by decide)

lemma pollLoop_ok_iff (jobs : Nat → Job) :
    ∀ (fuel i : Nat),
      (pollLoop jobs i fuel = .ok () ↔
        ∃ k, k < fuel ∧ (jobs (i + k)).status = JobStatus.completed ∧
          ∀ j, j < k → (jobs (i + j)).status.nonTerminal) := by
  intro fuel
  induction fuel with
  | zero => intro i; simp [pollLoop]
  | succ f ih =>
    intro i
    rw [pollLoop]
    by_cases hc : (jobs i).status = JobStatus.completed
    · simp only [hc, if_pos rfl]
      constructor
      · intro _
        exact ⟨0, Nat.succ_pos f, by simpa using hc, fun j hj => absurd hj (Nat.not_lt_zero j)⟩
      · intro _; rfl
    · rw [if_neg hc]
      by_cases hf : (jobs i).status = JobStatus.failed
      · rw [if_pos hf]
        constructor
        · intro h; exact absurd h (by simp)
        · rintro ⟨k, _, hk, hall⟩
          rcases Nat.eq_zero_or_pos k with rfl | hkpos
          · exact absurd (by simpa using hk) hc
          · have h0 := hall 0 hkpos
            simp only [Nat.add_zero] at h0
            exact (h0.2 hf).elim
      · rw [if_neg hf, ih (i + 1)]
        constructor
        · rintro ⟨k, hk, hck, hall⟩
          refine ⟨k + 1, Nat.succ_lt_succ hk, by rwa [Nat.add_comm k 1, ← Nat.add_assoc], ?_⟩
          intro j hj
          rcases Nat.eq_zero_or_pos j with rfl | hjpos
          · simpa [JobStatus.nonTerminal] using ⟨hc, hf⟩
          · have := hall (j - 1) (by omega)
            have harith : i + 1 + (j - 1) = i + j := by omega
            rwa [harith] at this
        · rintro ⟨k, hk, hck, hall⟩
          rcases Nat.eq_zero_or_pos k with rfl | hkpos
          · exact absurd (by simpa using hck) hc
          · refine ⟨k - 1, by omega, ?_, ?_⟩
            · have harith : i + 1 + (k - 1) = i + k := by omega
              rwa [harith]
            · intro j hj
              have := hall (j + 1) (by omega)
              have harith : i + (j + 1) = i + 1 + j := by omega
              rwa [harith] at this

lemma pollLoop_failed (jobs : Nat → Job) :
    ∀ (fuel k i : Nat), k < fuel → (jobs (i + k)).status = JobStatus.failed →
      (∀ j, j < k → (jobs (i + j)).status.nonTerminal) →
      pollLoop jobs i fuel = .error (jsStrOr (jobs (i + k)).error_details "Processing failed") := by
  intro fuel
  induction fuel with
  | zero => intro k i hk; omega
  | succ f ih =>
    intro k i hk hfail hall
    rw [pollLoop]
    rcases Nat.eq_zero_or_pos k with rfl | hkpos
    · simp only [Nat.add_zero] at hfail ⊢
      rw [if_neg (by simp [hfail]), if_pos hfail]
    · have h0 := hall 0 hkpos
      simp only [Nat.add_zero] at h0
      rw [if_neg h0.1, if_neg h0.2]
      have := ih (k - 1) (i + 1) (by omega) (by rw [show i + 1 + (k - 1) = i + k by omega]; exact hfail)
        (fun j hj => by rw [show i + 1 + j = i + (j + 1) by omega]; exact hall (j + 1) (by omega))
      rwa [show i + 1 + (k - 1) = i + k by omega] at this

lemma pollLoop_timeout (jobs : Nat → Job) :
    ∀ (fuel i : Nat), (∀ k, k < fuel → (jobs (i + k)).status.nonTerminal) →
      pollLoop jobs i fuel = .error "Processing timed out" := by
  intro fuel
  induction fuel with
  | zero => intro i _; rfl
  | succ f ih =>
    intro i hall
    have h0 := hall 0 (Nat.succ_pos f)
    simp only [Nat.add_zero] at h0
    rw [pollLoop, if_neg h0.1, if_neg h0.2]
    exact ih (i + 1) (fun k hk => by
      rw [show i + 1 + k = i + (k + 1) by omega]; exact hall (k + 1) (by omega))

lemma pollLoop_congr (jobs jobs2 : Nat → Job) :
    ∀ (fuel i : Nat), (∀ k, k < fuel → jobs (i + k) = jobs2 (i + k)) →
      pollLoop jobs i fuel = pollLoop jobs2 i fuel := by
  intro fuel
  induction fuel with
  | zero => intro i _; rfl
  | succ f ih =>
    intro i hag
    have h0 := hag 0 (Nat.succ_pos f)
    simp only [Nat.add_zero] at h0
    rw [pollLoop, pollLoop, h0]
    split
    · rfl
    · split
      · rfl
      · exact ih (i + 1) (fun k hk => by
          rw [show i + 1 + k = i + (k + 1) by omega]; exact hag (k + 1) (by omega))

/-- C4: `pollJobStatus` is a bounded loop of at most `maxAttempts = 60`
attempts (its outcome depends only on the first 60 snapshots); it returns
normally iff some poll observes `completed` with no earlier terminal status;
it raises an error carrying the server's `error_details` when a poll observes
`failed` first; and it raises the distinct client-side error
"Processing timed out" — not a server-side failure — when no terminal status
is observed within the attempt bound. -/
theorem pollJobStatus_contract (jobs : Nat → Job) :
    (pollJobStatus jobs = .ok () ↔
        ∃ k, k < maxAttempts ∧ (jobs k).status = JobStatus.completed ∧
          ∀ j, j < k → (jobs j).status.nonTerminal)
    ∧ (∀ k, k < maxAttempts → (jobs k).status = JobStatus.failed →
        (∀ j, j < k → (jobs j).status.nonTerminal) →
        pollJobStatus jobs = .error (jsStrOr (jobs k).error_details "Processing failed"))
    ∧ ((∀ k, k < maxAttempts → (jobs k).status.nonTerminal) →
        pollJobStatus jobs = .error "Processing timed out")
    ∧ (∀ jobs2 : Nat → Job, (∀ k, k < maxAttempts → jobs k = jobs2 k) →
        pollJobStatus jobs = pollJobStatus jobs2) := by
  refine ⟨?_, ?_, ?_, ?_⟩
  · simpa using pollLoop_ok_iff jobs maxAttempts 0
  · intro k hk hfail hall
    simpa using pollLoop_failed jobs maxAttempts k 0 hk (by simpa using hfail) (by simpa using hall)
  · intro hall
    exact pollLoop_timeout jobs maxAttempts 0 (by simpa using hall)
  · intro jobs2 hag
    exact pollLoop_congr jobs jobs2 maxAttempts 0 (by simpa using hag)

/-- Witness for C4: the contract applied to concrete servers — the completing
server returns normally and the immediately-failing server surfaces its
`error_details`. -/
theorem pollJobStatus_contract_witness :
    pollJobStatus demoJobs = .ok ()
    ∧ pollJobStatus demoFailJobs = .error "LLM validation failed" := by
  constructor
  · exact (pollJobStatus_contract demoJobs).1.mpr
      ⟨2, by decide, by decide, fun j hj => by
        interval_cases j <;> exact ⟨by decide, by decide⟩⟩
  · exact (pollJobStatus_contract demoFailJobs).2.1 0 (by decide) (by decide)
      (fun j hj => absurd hj (Nat.not_lt_zero j))

lemma progressStep_mono (prev : Nat) (job : Job) (hprev : prev ≤ 100) :
    prev ≤ progressStep prev job := by
  unfold progressStep
  split
  · exact hprev
  · split
    · exact Nat.le_refl prev
    · split
      · exact Nat.le_max_left _ _
      · exact Nat.le_refl prev

lemma progressStep_le (prev : Nat) (job : Job) (hprev : prev ≤ 100)
    (hjob : getNum job.progress_percentage ≤ 100) :
    progressStep prev job ≤ 100 := by
  unfold progressStep
  split
  · exact Nat.le_refl 100
  · split
    · exact hprev
    · split
      · exact Nat.max_le.mpr ⟨hprev, hjob⟩
      · exact hprev

/-- C8: the client-side recorded progress never decreases across successive
polls — each poll iteration maps the previous value to one at least as large
(and keeps it within 0–100, the job contract's range), over any sequence of
observed snapshots — and a poll that observes `completed` sets the progress
to exactly 100. -/
theorem progress_monotone (prev : Nat) (job : Job) (polls : List Job)
    (hprev : prev ≤ 100) (hjob : getNum job.progress_percentage ≤ 100)
    (hpolls : ∀ j ∈ polls, getNum j.progress_percentage ≤ 100) :
    (prev ≤ progressStep prev job ∧ progressStep prev job ≤ 100)
    ∧ (job.status = JobStatus.completed → progressStep prev job = 100)
    ∧ prev ≤ List.foldl progressStep prev polls := by
  refine ⟨⟨progressStep_mono prev job hprev, progressStep_le prev job hprev hjob⟩, ?_, ?_⟩
  · intro hc
    unfold progressStep
    rw [if_pos hc]
  · clear hjob job
    induction polls generalizing prev with
    | nil => exact Nat.le_refl prev
    | cons j rest ih =>
      rw [List.foldl_cons]
      have hj := hpolls j (List.mem_cons_self j rest)
      calc prev ≤ progressStep prev j := progressStep_mono prev j hprev
        _ ≤ List.foldl progressStep (progressStep prev j) rest :=
          ih _ (progressStep_le prev j hprev hj) (fun x hx => hpolls x (List.mem_cons_of_mem j hx))

/-- Witness for C8 at a concrete state: previous progress 30, a processing
snapshot at 55%, and a completing follow-up poll. -/
theorem progress_monotone_witness :
    (30 ≤ progressStep 30 { status := JobStatus.processing, progress_percentage := some 55, error_details := none }
      ∧ progressStep 30 { status := JobStatus.processing, progress_percentage := some 55, error_details := none } ≤ 100)
    ∧ (JobStatus.processing = JobStatus.completed →
        progressStep 30 { status := JobStatus.processing, progress_percentage := some 55, error_details := none } = 100)
    ∧ 30 ≤ List.foldl progressStep 30
        [ { status := JobStatus.processing, progress_percentage := some 55, error_details := none },
          { status := JobStatus.completed, progress_percentage := some 100, error_details := none } ] := by
  exact progress_monotone 30
    { status := JobStatus.processing, progress_percentage := some 55, error_details := none }
    [ { status := JobStatus.processing, progress_percentage := some 55, error_details := none },
      { status := JobStatus.completed, progress_percentage := some 100, error_details := none } ]
    (by decide) (by decide) (by decide)

lemma continuationChunks_length :
    ∀ (n : Nat) (l : List Inventor), l.length ≤ n →
      (continuationChunks l).length = (l.length + (continuation_capacity - 1)) / continuation_capacity := by
  intro n
  induction n with
  | zero =>
    intro l hl
    rcases l with _ | ⟨x, xs⟩
    · simp [continuationChunks, continuation_capacity]
    · simp at hl
  | succ n ih =>
    intro l hl
    rcases l with _ | ⟨x, xs⟩
    · simp [continuationChunks, continuation_capacity]
    · rw [continuationChunks]
      have hdrop : ((x :: xs).drop continuation_capacity).length ≤ n := by
        simp [continuation_capacity] at hl ⊢
        omega
      rw [List.length_cons, ih _ hdrop]
      simp [continuation_capacity]
      omega

lemma continuationChunks_join :
    ∀ (n : Nat) (l : List Inventor), l.length ≤ n → (continuationChunks l).flatten = l := by
  intro n
  induction n with
  | zero =>
    intro l hl
    rcases l with _ | ⟨x, xs⟩
    · simp [continuationChunks]
    · simp at hl
  | succ n ih =>
    intro l hl
    rcases l with _ | ⟨x, xs⟩
    · simp [continuationChunks]
    · rw [continuationChunks]
      have hdrop : ((x :: xs).drop continuation_capacity).length ≤ n := by
        simp [continuation_capacity] at hl ⊢
        omega
      rw [List.flatten_cons, ih _ hdrop, List.take_append_drop]

/-- C3 (modelled from the spec, backend Form Generator source absent from the
snapshot): the generated form has
`1 + ceil(max(0, N − primary_capacity) / continuation_capacity)` pages
(natural-number subtraction supplies the `max 0`, and
`(k + cap − 1) / cap` is the ceiling of `k / cap`), the pages are successive
capacity-sized slices of the inventors in original order; N ≤ 10 gives
exactly one page with no continuation page, and N = 11 gives exactly one
continuation page containing exactly 1 inventor. -/
theorem formGenerator_pagination (invs : List Inventor) :
    (paginateInventors invs).length
      = 1 + ((invs.length - primary_capacity) + (continuation_capacity - 1)) / continuation_capacity
    ∧ (paginateInventors invs).flatten = invs
    ∧ (invs.length ≤ primary_capacity → paginateInventors invs = [invs])
    ∧ (invs.length = primary_capacity + 1 →
        paginateInventors invs = [invs.take primary_capacity, invs.drop primary_capacity]
        ∧ (invs.drop primary_capacity).length = 1) := by
  refine ⟨?_, ?_, ?_, ?_⟩
  · rw [paginateInventors, List.length_cons,
      continuationChunks_length (invs.drop primary_capacity).length _ (Nat.le_refl _)]
    simp
    omega
  · rw [paginateInventors, List.flatten_cons,
      continuationChunks_join (invs.drop primary_capacity).length _ (Nat.le_refl _),
      List.take_append_drop]
  · intro hle
    have h0 : continuationChunks [] = [] := by rw [continuationChunks]
    rw [paginateInventors, List.drop_eq_nil_of_le hle, List.take_of_length_le hle, h0]
  · intro h11
    have hd : (invs.drop primary_capacity).length = 1 := by
      simp [primary_capacity] at h11 ⊢
      omega
    refine ⟨?_, hd⟩
    rw [paginateInventors]
    rcases hcase : invs.drop primary_capacity with _ | ⟨x, xs⟩
    · rw [hcase] at hd; simp at hd
    · rw [hcase] at hd
      simp only [List.length_cons] at hd
      have hxs : xs = [] := by
        have : xs.length = 0 := by omega
        exact List.length_eq_zero.mp this
      subst hxs
      rw [continuationChunks]
      simp [continuation_capacity, continuationChunks]

/-- Witness for C3: for 2 inventors there is a single page holding both, and
for 11 inventors there are two pages, the continuation page holding exactly
one inventor. -/
theorem formGenerator_pagination_witness :
    paginateInventors [janeTitleCase, janeUpperCase] = [[janeTitleCase, janeUpperCase]]
    ∧ paginateInventors elevenInventors
        = [elevenInventors.take primary_capacity, elevenInventors.drop primary_capacity]
    ∧ (elevenInventors.drop primary_capacity).length = 1 := by
  refine ⟨?_, ?_, ?_⟩
  · exact (formGenerator_pagination [janeTitleCase, janeUpperCase]).2.2.1 (by decide)
  · exact ((formGenerator_pagination elevenInventors).2.2.2 (by simp [elevenInventors, primary_capacity])).1
  · exact ((formGenerator_pagination elevenInventors).2.2.2 (by simp [elevenInventors, primary_capacity])).2

/-- C10 (counterexample): one `addFiles` call whose incoming batch contains
two accepted files with the same name adds both — the no-duplicate-names
invariant is not preserved, because the name filter only checks incoming
files against the previously selected ones, not against each other. -/
theorem addFiles_intra_batch_duplicate :
    (addFiles 4 [] [pdfA, csvA]).length = 2
    ∧ ¬ List.Pairwise (fun a b => a.file.name ≠ b.file.name) (addFiles 4 [] [pdfA, csvA]) := by
  constructor
  · decide
  · decide

lemma removeFileGo_sublist (index : Nat) :
    ∀ (l : List FileWithStatus) (i : Nat), List.Sublist (removeFileGo index i l) l := by
  intro l
  induction l with
  | nil => intro i; exact List.Sublist.refl []
  | cons x xs ih =>
    intro i
    rw [removeFileGo]
    split
    · exact List.Sublist.cons x (ih (i + 1))
    · exact List.Sublist.cons₂ x (ih (i + 1))

/-- C10 (amended): `addFiles` keeps the selection at no more than `maxFiles`
entries (when that held before), adds only files whose MIME type is in the
accepted set, and never adds a file whose name matches an entry selected
before the call — violating files are dropped silently and the batch is
truncated at the cap — but duplicate names inside a single incoming batch
are not filtered against each other; `removeFile` yields a sublist of the
selection, so it preserves the size bound, the accepted types, and any
name-distinctness that already held. -/
theorem fileSelection_invariants (maxFiles : Nat) (cur : List FileWithStatus)
    (batch : List JsFile) (files : List FileWithStatus) (index : Nat) :
    (cur.length ≤ maxFiles → (addFiles maxFiles cur batch).length ≤ maxFiles)
    ∧ ((∀ sf ∈ cur, sf.file.type ∈ ACCEPTED_FILE_TYPES) →
        ∀ sf ∈ addFiles maxFiles cur batch, sf.file.type ∈ ACCEPTED_FILE_TYPES)
    ∧ (∀ sf ∈ (addFiles maxFiles cur batch).drop cur.length, ∀ c ∈ cur,
        sf.file.name ≠ c.file.name)
    ∧ List.Sublist (removeFile files index) files
    ∧ ((removeFile files index).length ≤ files.length)
    ∧ (List.Pairwise (fun a b => a.file.name ≠ b.file.name) files →
        List.Pairwise (fun a b => a.file.name ≠ b.file.name) (removeFile files index)) := by
  have hsub := removeFileGo_sublist index files 0
  refine ⟨?_, ?_, ?_, hsub, hsub.length_le, fun hpw => hpw.sublist hsub⟩
  · intro hcur
    rw [addFiles]
    simp only [List.length_append, List.length_map]
    set valid := batch.filter (fun f =>
      ACCEPTED_FILE_TYPES.contains f.type
        && !(cur.any (fun sf => sf.file.name == f.name))) with hvalid
    by_cases hover : cur.length + valid.length > maxFiles
    · rw [if_pos hover]
      rw [spliceKeep, if_neg (by omega)]
      simp only [List.length_take]
      omega
    · rw [if_neg hover]
      omega
  · intro hcur sf hsf
    rw [addFiles] at hsf
    rcases List.mem_append.mp hsf with hmem | hmem
    · exact hcur sf hmem
    · rcases List.mem_map.mp hmem with ⟨f, hf, rfl⟩
      have hfvalid : f ∈ batch.filter (fun f =>
          ACCEPTED_FILE_TYPES.contains f.type
            && !(cur.any (fun sf => sf.file.name == f.name))) := by
        by_cases hover : cur.length + (batch.filter (fun f =>
            ACCEPTED_FILE_TYPES.contains f.type
              && !(cur.any (fun sf => sf.file.name == f.name)))).length > maxFiles
        · rw [if_pos hover] at hf
          rw [spliceKeep] at hf
          split at hf <;> exact List.mem_of_mem_take hf
        · rwa [if_neg hover] at hf
      have := (List.mem_filter.mp hfvalid).2
      simp only [Bool.and_eq_true] at this
      simpa using this.1
  · intro sf hsf c hc
    rw [addFiles, List.drop_left] at hsf
    rcases List.mem_map.mp hsf with ⟨f, hf, rfl⟩
    have hfvalid : f ∈ batch.filter (fun f =>
        ACCEPTED_FILE_TYPES.contains f.type
          && !(cur.any (fun sf => sf.file.name == f.name))) := by
      by_cases hover : cur.length + (batch.filter (fun f =>
          ACCEPTED_FILE_TYPES.contains f.type
            && !(cur.any (fun sf => sf.file.name == f.name)))).length > maxFiles
      · rw [if_pos hover] at hf
        rw [spliceKeep] at hf
        split at hf <;> exact List.mem_of_mem_take hf
      · rwa [if_neg hover] at hf
    have := (List.mem_filter.mp hfvalid).2
    simp only [Bool.and_eq_true, Bool.not_eq_eq_eq_not, Bool.not_true, List.any_eq_false,
      beq_iff_eq] at this
    intro hcontra
    exact absurd hcontra.symm (this.2 c hc)

/-- Witness for C10 at a concrete selection: adding a PDF to a one-entry
queue respects the cap and the accepted-type set, the added entry's name is
new, and removing index 0 leaves a sublist. -/
theorem fileSelection_invariants_witness :
    (addFiles 4 [docxEntry] [pdfA]).length ≤ 4
    ∧ (∀ sf ∈ addFiles 4 [docxEntry] [pdfA], sf.file.type ∈ ACCEPTED_FILE_TYPES)
    ∧ (∀ sf ∈ (addFiles 4 [docxEntry] [pdfA]).drop [docxEntry].length, ∀ c ∈ [docxEntry],
        sf.file.name ≠ c.file.name)
    ∧ List.Pairwise (fun (a b : FileWithStatus) => a.file.name ≠ b.file.name)
        (removeFile [docxEntry] 0) := by
  have h := fileSelection_invariants 4 [docxEntry] [pdfA] [docxEntry] 0
  exact ⟨h.1 (by decide), h.2.1 (by decide), h.2.2.1,
    h.2.2.2.2.2 (by decide)⟩

lemma digitChar_inj (a b : Nat) (ha : a < 10) (hb : b < 10)
    (h : digitChar a = digitChar b) : a = b := by
  have key : ∀ x y : Fin 10, digitChar x.val = digitChar y.val → x = y := by decide
  exact congrArg Fin.val (key ⟨a, ha⟩ ⟨b, hb⟩ h)

lemma repl_digitChar (n : Nat) : replTimestampChar (digitChar n) = digitChar n := by
  unfold digitChar
  split <;> rfl

lemma sanitized_chars (d : DateTime) :
    (sanitizedTimestamp d).data
      = pad4 d.year ++ '-' :: (pad2 d.month ++ '-' :: (pad2 d.day ++ 'T' :: (pad2 d.hour
          ++ '-' :: (pad2 d.minute ++ '-' :: (pad2 d.second ++ '-' :: (pad3 d.millisecond
            ++ ['Z'])))))) := by
  show (isoChars d).map replTimestampChar = _
  simp only [isoChars, pad4, pad3, pad2, List.map_append, List.map_cons, List.map_nil,
    repl_digitChar]
  rfl

lemma pad2_inj (a b : Nat) (ha : a < 100) (hb : b < 100) (h : pad2 a = pad2 b) : a = b := by
  simp only [pad2, List.cons.injEq, and_true] at h
  have h1 := digitChar_inj _ _ (Nat.mod_lt _ (by omega)) (Nat.mod_lt _ (by omega)) h.1
  have h2 := digitChar_inj _ _ (Nat.mod_lt _ (by omega)) (Nat.mod_lt _ (by omega)) h.2
  omega

lemma pad3_inj (a b : Nat) (ha : a < 1000) (hb : b < 1000) (h : pad3 a = pad3 b) : a = b := by
  simp only [pad3, List.cons.injEq, and_true] at h
  have h1 := digitChar_inj _ _ (Nat.mod_lt _ (by omega)) (Nat.mod_lt _ (by omega)) h.1
  have h2 := digitChar_inj _ _ (Nat.mod_lt _ (by omega)) (Nat.mod_lt _ (by omega)) h.2.1
  have h3 := digitChar_inj _ _ (Nat.mod_lt _ (by omega)) (Nat.mod_lt _ (by omega)) h.2.2
  omega

lemma pad4_inj (a b : Nat) (ha : a < 10000) (hb : b < 10000) (h : pad4 a = pad4 b) : a = b := by
  simp only [pad4, List.cons.injEq, and_true] at h
  have h1 := digitChar_inj _ _ (Nat.mod_lt _ (by omega)) (Nat.mod_lt _ (by omega)) h.1
  have h2 := digitChar_inj _ _ (Nat.mod_lt _ (by omega)) (Nat.mod_lt _ (by omega)) h.2.1
  have h3 := digitChar_inj _ _ (Nat.mod_lt _ (by omega)) (Nat.mod_lt _ (by omega)) h.2.2.1
  have h4 := digitChar_inj _ _ (Nat.mod_lt _ (by omega)) (Nat.mod_lt _ (by omega)) h.2.2.2
  omega

lemma sanitized_chars_mk (y mo dd hr mi s ms : Nat) :
    (sanitizedTimestamp (DateTime.mk y mo dd hr mi s ms)).data
      = pad4 y ++ '-' :: (pad2 mo ++ '-' :: (pad2 dd ++ 'T' :: (pad2 hr
          ++ '-' :: (pad2 mi ++ '-' :: (pad2 s ++ '-' :: (pad3 ms ++ ['Z'])))))) :=
  sanitized_chars _

lemma sanitizedTimestamp_inj (d1 d2 : DateTime) (h1 : d1.Valid) (h2 : d2.Valid)
    (h : sanitizedTimestamp d1 = sanitizedTimestamp d2) : d1 = d2 := by
  obtain ⟨y1, mo1, dd1, hr1, mi1, s1, ms1⟩ := d1
  obtain ⟨y2, mo2, dd2, hr2, mi2, s2, ms2⟩ := d2
  have hv1 : y1 < 10000 ∧ 1 ≤ mo1 ∧ mo1 ≤ 12 ∧ 1 ≤ dd1 ∧ dd1 ≤ 31 ∧ hr1 < 24
      ∧ mi1 < 60 ∧ s1 < 60 ∧ ms1 < 1000 := h1
  have hv2 : y2 < 10000 ∧ 1 ≤ mo2 ∧ mo2 ≤ 12 ∧ 1 ≤ dd2 ∧ dd2 ≤ 31 ∧ hr2 < 24
      ∧ mi2 < 60 ∧ s2 < 60 ∧ ms2 < 1000 := h2
  obtain ⟨hv1a, hv1b, hv1c, hv1d, hv1e, hv1f, hv1g, hv1h, hv1i⟩ := hv1
  obtain ⟨hv2a, hv2b, hv2c, hv2d, hv2e, hv2f, hv2g, hv2h, hv2i⟩ := hv2
  have hdata := congrArg String.data h
  rw [sanitized_chars_mk, sanitized_chars_mk] at hdata
  obtain ⟨hy, hdata⟩ := List.append_inj hdata rfl
  injection hdata with _ hdata
  obtain ⟨hmo, hdata⟩ := List.append_inj hdata rfl
  injection hdata with _ hdata
  obtain ⟨hday, hdata⟩ := List.append_inj hdata rfl
  injection hdata with _ hdata
  obtain ⟨hhr, hdata⟩ := List.append_inj hdata rfl
  injection hdata with _ hdata
  obtain ⟨hmin, hdata⟩ := List.append_inj hdata rfl
  injection hdata with _ hdata
  obtain ⟨hsec, hdata⟩ := List.append_inj hdata rfl
  injection hdata with _ hdata
  obtain ⟨hms, _⟩ := List.append_inj hdata rfl
  simp only [DateTime.mk.injEq]
  exact ⟨pad4_inj _ _ hv1a hv2a hy,
    pad2_inj _ _ (by omega) (by omega) hmo,
    pad2_inj _ _ (by omega) (by omega) hday,
    pad2_inj _ _ (by omega) (by omega) hhr,
    pad2_inj _ _ (by omega) (by omega) hmin,
    pad2_inj _ _ (by omega) (by omega) hsec,
    pad3_inj _ _ hv1i hv2i hms⟩

lemma string_data_append (s t : String) : (s ++ t).data = s.data ++ t.data := by
  cases s
  cases t
  rfl

/-- C9: the suggested filename embeds the sanitized application number
together with the sanitized millisecond timestamp of the generation, so two
generations of the same metadata performed at distinct (valid) instants
yield distinct filenames. -/
theorem suggestedFilename_unique (md : ApplicationMetadata) (d1 d2 : DateTime)
    (h1 : d1.Valid) (h2 : d2.Valid) (hne : d1 ≠ d2) :
    suggestedFilename md d1 ≠ suggestedFilename md d2 := by
  intro heq
  apply hne
  apply sanitizedTimestamp_inj d1 d2 h1 h2
  have hdata := congrArg String.data heq
  simp only [suggestedFilename, string_data_append] at hdata
  have hts := List.append_cancel_left (List.append_cancel_right hdata)
  apply String.ext
  exact hts

/-- Witness for C9: two generations one millisecond apart produce different
suggested filenames. -/
theorem suggestedFilename_unique_witness :
    suggestedFilename exampleDocA1 demoInstant ≠ suggestedFilename exampleDocA1 demoInstantLater := by
  exact suggestedFilename_unique exampleDocA1 demoInstant demoInstantLater
    (by decide) (by decide) (by decide)
